import Mathlib

/-!
Shallow embedding of the chat view `src/views/LiveTest.tsx` of the
repository `Dvineee/1431geminihup`, together with proofs of the spec
claims about it.

The component is a single-page chat interface: it keeps a message list,
streams model replies into a placeholder message, extracts code artifacts
from fenced blocks, keeps a per-bot notes list, and persists everything
per bot identifier in string-keyed storage.  The definitions below are
translated from the source file; JavaScript regular expressions are
modelled as deterministic character-list scanners matching the engine's
leftmost-match semantics, `Date.now()` as an explicit `now : Nat`
argument, and `localStorage` as a function `String → Option String`.
-/

namespace LiveTest

/-- ASCII whitespace as recognised by the JavaScript `\s` class and
`String.prototype.trim` (space, tab, newline, carriage return, vertical
tab, form feed; exotic Unicode spaces are out of scope of this model). -/
def isJsSpace (c : Char) : Bool :=
  c = ' ' || c = '\t' || c = '\n' || c = '\r' ||
  c = Char.ofNat 11 || c = Char.ofNat 12

/-- JavaScript `String.prototype.trim`: drop whitespace from both ends. -/
def jsTrim (s : String) : String :=
  String.mk (((s.data.dropWhile isJsSpace).reverse.dropWhile isJsSpace).reverse)

/-- Role of a chat message (the `role` field of `Message` in `types.ts`). -/
inductive Role where
  | user
  | model
deriving DecidableEq, Repr

/-- A chat message as created and consumed by the component: identifier,
role, text, creation time, optional media URL and type tag, optional
grounding citations. -/
structure Message where
  id : String
  role : Role
  text : String
  timestamp : Nat
  mediaUrl : Option String := none
  type : Option String := none
  groundingChunks : Option (List String) := none
deriving DecidableEq, Repr

/-- A pending attachment owned by the compose form (`Attachment` interface
in the source; the raw `File` handle carries no further observable data). -/
structure Attachment where
  preview : String
  base64 : String
  type : String
deriving DecidableEq, Repr

/-- Source tag of a pano note (`source: 'bot' | 'user'` in the source). -/
inductive NoteSource where
  | bot
  | user
deriving DecidableEq, Repr

/-- A saved note (`PanoNote` interface in the source). -/
structure PanoNote where
  id : String
  text : String
  timestamp : Nat
  source : NoteSource
deriving DecidableEq, Repr

/-- The user message appended by `send` (source line 284-285): id is the
millisecond clock value, media preview and type come from the first
attachment. -/
def userMessage (now : Nat) (input : String) (atts : List Attachment) : Message :=
  { id := Nat.repr now
    role := .user
    text := input
    timestamp := now
    mediaUrl := atts.head?.map (·.preview)
    type := some (if (atts.head?.map (·.type)).elim false (·.startsWith "image")
                  then "image" else "text") }

/-- The empty placeholder model message appended by `send` (source lines
287-288): id is the clock value plus one, text starts empty. -/
def placeholderMessage (now : Nat) : Message :=
  { id := Nat.repr (now + 1)
    role := .model
    text := ""
    timestamp := now
    groundingChunks := some [] }

/-- The component state touched by the `send` guard and prologue. -/
structure ChatState where
  messages : List Message
  input : String
  attachments : List Attachment
  isLoading : Bool
  hasSession : Bool
deriving DecidableEq, Repr

/-- The synchronous prologue of `send` (source lines 280-288): the guard
`(!input.trim() && attachments.length === 0) || !chatSession || isLoading`
returns without issuing a request; otherwise the input and attachments are
cleared, the loading flag is set, and the user message and placeholder are
appended.  The second component records whether a request was issued. -/
def sendStart (now : Nat) (s : ChatState) : ChatState × Bool :=
  if (jsTrim s.input = "" ∧ s.attachments = []) ∨ s.hasSession = false ∨
      s.isLoading = true then
    (s, false)
  else
    ({ s with
        input := ""
        attachments := []
        isLoading := true
        messages := s.messages ++
          [userMessage now s.input s.attachments, placeholderMessage now] }, true)

/-- The `finally` clause of `send` (source line 311): clear the loading
flag. -/
def finishSend (s : ChatState) : ChatState :=
  { s with isLoading := false }

/-- Typing into the compose field (`setInput`). -/
def setInput (v : String) (s : ChatState) : ChatState :=
  { s with input := v }

/-- Localized quota-exceeded message (source line 309). -/
def quotaExceededText : String := "API kotası doldu. Lütfen bekleyin."

/-- Generic connectivity-error message (source line 309). -/
def connectionErrorText : String := "Bağlantı hatası oluştu."

/-- The `catch` handler of `send` (source lines 308-310): pick the quota
message exactly when the error message is `SYSTEM_BUSY`, else the generic
connectivity message, and substitute it into the placeholder message. -/
def handleSendError (botMsgId errMessage : String) (msgs : List Message) :
    List Message :=
  let errorMsg := if errMessage = "SYSTEM_BUSY" then quotaExceededText
                  else connectionErrorText
  msgs.map fun m => if m.id = botMsgId then { m with text := errorMsg } else m

/-- The body of the streaming callback (source lines 298-299): overwrite the
placeholder's text with the accumulated full text and merge grounding
citations (`grounding || m.groundingChunks`). -/
def applyChunk (botMsgId : String) (fullText : String)
    (grounding : Option (List String)) (msgs : List Message) : List Message :=
  msgs.map fun m =>
    if m.id = botMsgId then
      { m with
          text := fullText
          groundingChunks := match grounding with
            | some g => some g
            | none => m.groundingChunks }
    else m

/-- The streaming loop (source lines 296-300): fold the callback over the
arriving fragments, threading the accumulated `fullText`.  Returns the
final accumulated text and the final message list. -/
def runStream (botMsgId : String) (fullText : String) (msgs : List Message) :
    List (String × Option (List String)) → String × List Message
  | [] => (fullText, msgs)
  | (c, g) :: rest =>
      runStream botMsgId (fullText ++ c) (applyChunk botMsgId (fullText ++ c) g msgs) rest

/-- Concatenation of a list of fragments in arrival order. -/
def concatChunks : List String → String
  | [] => ""
  | c :: rest => c ++ concatChunks rest

/-- Match a literal character sequence at the head of the input, returning
the remainder on success. -/
def matchLiteral : List Char → List Char → Option (List Char)
  | [], cs => some cs
  | _ :: _, [] => none
  | p :: ps, c :: cs => if c = p then matchLiteral ps cs else none

/-- Scan for the closing `]` of a generation directive.  The source pattern
ends in `.*?\]`; `.` does not cross line terminators, so the scan stops at
the first `]`, failing on a newline or the end of input. -/
def findCloseBracket : List Char → Option (List Char)
  | [] => none
  | c :: cs =>
    if c = ']' then some cs
    else if c = '\n' ∨ c = '\r' then none
    else findCloseBracket cs

/-- Match the source regex `\[GENERATE_(IMAGE|VIDEO):\s*.*?\]` at the head
of the input (the `\s*` part is greedy and may cross newlines; the lazy
`.*?` then reaches the first `]` before any line terminator).  Returns the
suffix after the closing bracket. -/
def matchDirective (cs : List Char) : Option (List Char) :=
  match matchLiteral "[GENERATE_".data cs with
  | none => none
  | some r1 =>
    match (matchLiteral "IMAGE:".data r1).orElse (fun _ => matchLiteral "VIDEO:".data r1) with
    | none => none
    | some r2 => findCloseBracket (r2.dropWhile isJsSpace)

theorem matchLiteral_length {ps cs r : List Char} (h : matchLiteral ps cs = some r) :
    r.length + ps.length = cs.length := by
  induction ps generalizing cs with
  | nil => simp [matchLiteral] at h; simp [h]
  | cons p ps ih =>
    cases cs with
    | nil => simp [matchLiteral] at h
    | cons c cs =>
      simp only [matchLiteral] at h
      split at h
      · have := ih h
        simp [List.length_cons]
        omega
      · exact absurd h (by simp)

theorem findCloseBracket_length {cs r : List Char} (h : findCloseBracket cs = some r) :
    r.length < cs.length := by
  induction cs with
  | nil => simp [findCloseBracket] at h
  | cons c cs ih =>
    simp only [findCloseBracket] at h
    split at h
    · cases h; simp
    · split at h
      · exact absurd h (by simp)
      · exact Nat.lt_trans (ih h) (by simp)

theorem length_dropWhile_le (p : Char → Bool) (l : List Char) :
    (l.dropWhile p).length ≤ l.length := by
  induction l with
  | nil => simp [List.dropWhile]
  | cons c cs ih =>
    simp only [List.dropWhile]
    split
    · exact Nat.le_trans ih (by simp)
    · simp

theorem matchDirective_length {cs r : List Char} (h : matchDirective cs = some r) :
    r.length < cs.length := by
  unfold matchDirective at h
  cases h1 : matchLiteral "[GENERATE_".data cs with
  | none => rw [h1] at h; exact absurd h (by simp)
  | some r1 =>
    rw [h1] at h
    dsimp only at h
    cases h2 : (matchLiteral "IMAGE:".data r1).orElse
        (fun _ => matchLiteral "VIDEO:".data r1) with
    | none => rw [h2] at h; exact absurd h (by simp)
    | some r2 =>
      rw [h2] at h
      have hr1 : r1.length < cs.length := by
        have := matchLiteral_length h1
        simp at this
        omega
      have hr2 : r2.length ≤ r1.length := by
        cases h3 : matchLiteral "IMAGE:".data r1 with
        | some v =>
          rw [h3] at h2
          simp only [Option.orElse] at h2
          cases h2
          have := matchLiteral_length h3
          omega
        | none =>
          rw [h3] at h2
          simp only [Option.orElse] at h2
          have := matchLiteral_length h2
          omega
      have hdrop : (r2.dropWhile isJsSpace).length ≤ r2.length :=
        length_dropWhile_le isJsSpace r2
      have := findCloseBracket_length h
      omega

/-- The directive-deletion loop, written with a structural fuel argument so
that it reduces in the kernel; one unit of fuel covers at least one
consumed character, so any fuel of at least the input length computes the
replacement (`stripDirectivesFuel_congr` below shows the fuel does not
matter beyond that). -/
def stripDirectivesFuel : Nat → List Char → List Char
  | 0, cs => cs
  | _ + 1, [] => []
  | fuel + 1, c :: rest =>
    match matchDirective (c :: rest) with
    | some r => stripDirectivesFuel fuel r
    | none => c :: stripDirectivesFuel fuel rest

/-- The global replacement `text.replace(/\[GENERATE_(IMAGE|VIDEO):\s*.*?\]/g, '')`
(source lines 229 and 363): delete every leftmost non-overlapping directive
match, scanning left to right. -/
def stripDirectives (cs : List Char) : List Char :=
  stripDirectivesFuel cs.length cs

theorem stripDirectivesFuel_congr :
    ∀ (f1 f2 : Nat) (cs : List Char), cs.length ≤ f1 → cs.length ≤ f2 →
      stripDirectivesFuel f1 cs = stripDirectivesFuel f2 cs := by
  intro f1
  induction f1 with
  | zero =>
    intro f2 cs h1 _
    have : cs = [] := List.length_eq_zero.mp (Nat.le_zero.mp h1)
    subst this
    cases f2 <;> rfl
  | succ f1 ih =>
    intro f2 cs h1 h2
    cases cs with
    | nil => cases f2 <;> rfl
    | cons c rest =>
      cases f2 with
      | zero => simp at h2
      | succ f2 =>
        simp only [stripDirectivesFuel]
        cases h : matchDirective (c :: rest) with
        | some r =>
          have hr := matchDirective_length h
          simp only [List.length_cons] at h1 h2 hr
          exact ih f2 r (by omega) (by omega)
        | none =>
          simp only [List.length_cons] at h1 h2
          rw [ih f2 rest (by omega) (by omega)]

/-- The fuel in `stripDirectives` is invisible: the function satisfies the
natural recursion of the replacement loop. -/
theorem stripDirectives_eq (cs : List Char) :
    stripDirectives cs =
      match cs with
      | [] => []
      | c :: rest =>
        match matchDirective (c :: rest) with
        | some r => stripDirectives r
        | none => c :: stripDirectives rest := by
  cases cs with
  | nil => rfl
  | cons c rest =>
    show stripDirectivesFuel (c :: rest).length (c :: rest) = _
    simp only [List.length_cons, stripDirectivesFuel]
    cases h : matchDirective (c :: rest) with
    | some r =>
      have hr := matchDirective_length h
      simp only [List.length_cons] at hr
      exact stripDirectivesFuel_congr rest.length r.length r (by omega)
        (Nat.le_refl _)
    | none =>
      rfl

/-- JavaScript `String.prototype.toLowerCase`, on the ASCII range this model
works over: lower-case every character. -/
def jsToLower (s : String) : String := String.mk (s.data.map Char.toLower)

/-- Character class `[a-zA-Z0-9._-]` of the filename directive regex. -/
def isFilenameChar (c : Char) : Bool :=
  c.isAlpha || c.isDigit || c = '.' || c = '_' || c = '-'

/-- Case-insensitive literal match (the directive regex carries the `i`
flag), returning the remainder on success. -/
def matchCaseInsensitive : List Char → List Char → Option (List Char)
  | [], cs => some cs
  | _ :: _, [] => none
  | p :: ps, c :: cs =>
    if c.toLower = p.toLower then matchCaseInsensitive ps cs else none

/-- Match `\/\/\s*filename:\s*([a-zA-Z0-9._-]+)` (flag `i`) at the head of
the input, returning the captured name.  The greedy `\s*` is exact here
because no filename character is whitespace. -/
def matchFilenameDirective (cs : List Char) : Option (List Char) :=
  match matchLiteral "//".data cs with
  | none => none
  | some r1 =>
    match matchCaseInsensitive "filename:".data (r1.dropWhile isJsSpace) with
    | none => none
    | some r2 =>
      let name := (r2.dropWhile isJsSpace).takeWhile isFilenameChar
      if name.isEmpty then none else some name

/-- Leftmost search of the directive regex over a line (JavaScript
`String.prototype.match` without the `g` flag). -/
def searchFilenameDirective : List Char → Option (List Char)
  | [] => none
  | c :: cs =>
    match matchFilenameDirective (c :: cs) with
    | some name => some name
    | none => searchFilenameDirective cs

/-- The first line of a code block: `code.split('\n')[0]`. -/
def firstLine (code : String) : List Char :=
  code.data.takeWhile (· ≠ '\n')

/-- `getFilenameFromCode` (source lines 314-319): a filename directive on
the first line wins; otherwise `html`/`js`/`css` map to fixed defaults
(after lowercasing the tag); otherwise `file.<lang>`, with `txt` when the
tag is empty. -/
def getFilenameFromCode (code lang : String) : String :=
  match searchFilenameDirective (firstLine code) with
  | some name => String.mk name
  | none =>
    let l := jsToLower lang
    if l = "html" then "index.html"
    else if l = "js" then "script.js"
    else if l = "css" then "style.css"
    else "file." ++ (if lang = "" then "txt" else lang)

/-- `handleSaveToPano` (source lines 228-234): strip generation directives,
trim, ignore an empty result, else prepend a bot-sourced note. -/
def handleSaveToPano (now : Nat) (text : String) (notes : List PanoNote) :
    List PanoNote :=
  let cleanText := jsTrim (String.mk (stripDirectives text.data))
  if cleanText = "" then notes
  else { id := Nat.repr now, text := cleanText, timestamp := now,
         source := .bot } :: notes

/-- `handleManualNoteSave` (source lines 236-240): ignore whitespace-only
input, else prepend a user-sourced note with the trimmed text. -/
def handleManualNoteSave (now : Nat) (manualNoteText : String)
    (notes : List PanoNote) : List PanoNote :=
  if jsTrim manualNoteText = "" then notes
  else { id := Nat.repr now, text := jsTrim manualNoteText, timestamp := now,
         source := .user } :: notes

/-- The browser's string-keyed storage. -/
def Storage : Type := String → Option String

/-- `localStorage.removeItem`. -/
def Storage.removeItem (st : Storage) (key : String) : Storage :=
  fun k => if k = key then none else st k

/-- `localStorage.setItem`. -/
def Storage.setItem (st : Storage) (key value : String) : Storage :=
  fun k => if k = key then some value else st k

/-- `CHAT_STORAGE_KEY` (source line 82). -/
def chatStorageKey (id : String) : String := "geminihub_chat_history_" ++ id

/-- `MODEL_STORAGE_KEY` (source line 83). -/
def modelStorageKey (id : String) : String := "geminihub_selected_model_" ++ id

/-- `PANO_STORAGE_KEY` (source line 84). -/
def panoStorageKey (id : String) : String := "geminihub_pano_" ++ id

/-- The per-bot session state relevant to reset and persistence. -/
structure SessionState where
  messages : List Message
  panoNotes : List PanoNote
  selectedModel : String
  storage : Storage

/-- The reset-confirm handler (source line 517): clear the in-memory
messages and remove the persisted chat history entry of the current bot. -/
def confirmReset (id : String) (s : SessionState) : SessionState :=
  { s with messages := [], storage := s.storage.removeItem (chatStorageKey id) }

/-- The history-persistence effect (source lines 207-212): serialise and
write the message list, but only when it is non-empty. -/
def persistMessages (id : String) (serialize : List Message → String)
    (msgs : List Message) (st : Storage) : Storage :=
  if msgs.length > 0 then st.setItem (chatStorageKey id) (serialize msgs) else st

/-- Initial-mount initialiser of `messages` (source lines 86-94): parse the
saved string when present, falling back to the empty list on a parse
failure.  `parse` stands for `JSON.parse` composed with the
timestamp-reviving map; it returns `none` whenever that computation throws
(malformed JSON or a non-array value). -/
def initMessages (parse : String → Option (List Message))
    (saved : Option String) : List Message :=
  match saved with
  | some s => if s = "" then [] else (parse s).getD []
  | none => []

/-- Initial-mount initialiser of `panoNotes` (source lines 123-135),
including the `source || 'bot'` default inside `parse`. -/
def initPanoNotes (parse : String → Option (List PanoNote))
    (saved : Option String) : List PanoNote :=
  match saved with
  | some s => if s = "" then [] else (parse s).getD []
  | none => []

/-- The greeting message installed when no usable history exists (source
lines 145 and 147). -/
def initMessage (botName : String) (now : Nat) : Message :=
  { id := "init"
    role := .model
    text := "Session initialized for " ++ botName ++ "."
    timestamp := now }

/-- The bot-change reload of `messages` (source lines 141-148): a missing
entry or a parse failure installs the single greeting message. -/
def reloadMessages (parse : String → Option (List Message)) (botName : String)
    (now : Nat) (saved : Option String) : List Message :=
  match saved with
  | some s =>
    if s = "" then [initMessage botName now]
    else
      match parse s with
      | some ms => ms
      | none => [initMessage botName now]
  | none => [initMessage botName now]

/-- The bot-change reload of `panoNotes` (source lines 150-153): a missing
entry or a parse failure leaves the previous notes list untouched. -/
def reloadPanoNotes (parse : String → Option (List PanoNote))
    (saved : Option String) (prev : List PanoNote) : List PanoNote :=
  match saved with
  | some s => if s = "" then prev else (parse s).getD prev
  | none => prev

/-- A triple-backtick fence. -/
def fenceChars : List Char := "```".data

/-- Split at the leftmost fence: `some (before, after)` when a fence occurs,
with `before` the text preceding it and `after` the text following it. -/
def splitAtFence : List Char → Option (List Char × List Char)
  | [] => none
  | c :: cs =>
    if fenceChars.isPrefixOf (c :: cs) then some ([], (c :: cs).drop 3)
    else (splitAtFence cs).map fun p => (c :: p.1, p.2)

/-- The leftmost complete fenced region of the lazy pattern
`` ```[\s\S]*?``` ``: the text before the opening fence, the region content
between the fences, and the suffix after the closing fence. -/
def findFencedRegion (cs : List Char) : Option (List Char × List Char × List Char) :=
  match splitAtFence cs with
  | none => none
  | some (before, rest) =>
    match splitAtFence rest with
    | none => none
    | some (mid, after) => some (before, mid, after)

theorem splitAtFence_eq_append {cs b a : List Char}
    (h : splitAtFence cs = some (b, a)) : cs = b ++ fenceChars ++ a := by
  induction cs generalizing b with
  | nil => simp [splitAtFence] at h
  | cons c cs ih =>
    simp only [splitAtFence] at h
    split at h
    · rename_i hpre
      rcases List.isPrefixOf_iff_prefix.mp hpre with ⟨t, ht⟩
      cases h
      rw [List.nil_append, ← ht,
        List.drop_left' (show fenceChars.length = 3 from rfl)]
    · cases h' : splitAtFence cs with
      | none => rw [h'] at h; exact absurd h (by simp)
      | some p =>
        obtain ⟨b1, a1⟩ := p
        rw [h'] at h
        have h2 : (c :: b1, a1) = (b, a) := by simpa using h
        cases h2
        simp [ih h']

theorem splitAtFence_length {cs b a : List Char}
    (h : splitAtFence cs = some (b, a)) : a.length + 3 ≤ cs.length := by
  have := splitAtFence_eq_append h
  subst this
  simp [fenceChars]

theorem findFencedRegion_eq_append {cs b m a : List Char}
    (h : findFencedRegion cs = some (b, m, a)) :
    cs = b ++ fenceChars ++ m ++ fenceChars ++ a := by
  unfold findFencedRegion at h
  cases h1 : splitAtFence cs with
  | none => rw [h1] at h; simp at h
  | some p1 =>
    rw [h1] at h
    obtain ⟨b1, r1⟩ := p1
    cases h2 : splitAtFence r1 with
    | none => simp [h2] at h
    | some p2 =>
      obtain ⟨m2, a2⟩ := p2
      simp only [h2] at h
      cases h
      have e1 := splitAtFence_eq_append h1
      have e2 := splitAtFence_eq_append h2
      rw [e1, e2]
      simp

theorem findFencedRegion_length {cs b m a : List Char}
    (h : findFencedRegion cs = some (b, m, a)) : a.length < cs.length := by
  have := findFencedRegion_eq_append h
  subst this
  simp [fenceChars]
  omega

/-- The fence-splitting loop, written with a structural fuel argument so
that it reduces in the kernel; a consumed region spans at least six
characters, so any fuel of at least the input length computes the split
(`splitOnFencedRegionsFuel_congr` below shows the fuel does not matter
beyond that). -/
def splitOnFencedRegionsFuel : Nat → List Char → List (List Char)
  | 0, cs => [cs]
  | fuel + 1, cs =>
    match findFencedRegion cs with
    | none => [cs]
    | some (before, mid, after) =>
      before :: (fenceChars ++ mid ++ fenceChars) ::
        splitOnFencedRegionsFuel fuel after

/-- The split of a message text on fenced regions, keeping the captured
regions: `cleanText.split(/(```[\s\S]*?```)/g)` (source line 364).  Text
parts and captured regions alternate; the captured region carries its
delimiting fences, exactly as the JavaScript split-with-capture does. -/
def splitOnFencedRegions (cs : List Char) : List (List Char) :=
  splitOnFencedRegionsFuel cs.length cs

theorem splitOnFencedRegionsFuel_congr :
    ∀ (f1 f2 : Nat) (cs : List Char), cs.length ≤ f1 → cs.length ≤ f2 →
      splitOnFencedRegionsFuel f1 cs = splitOnFencedRegionsFuel f2 cs := by
  intro f1
  induction f1 with
  | zero =>
    intro f2 cs h1 _
    have : cs = [] := List.length_eq_zero.mp (Nat.le_zero.mp h1)
    subst this
    cases f2 with
    | zero => rfl
    | succ f2 =>
      show [([] : List Char)] = splitOnFencedRegionsFuel (f2 + 1) []
      simp [splitOnFencedRegionsFuel, findFencedRegion, splitAtFence]
  | succ f1 ih =>
    intro f2 cs h1 h2
    cases f2 with
    | zero =>
      have : cs = [] := List.length_eq_zero.mp (Nat.le_zero.mp h2)
      subst this
      show splitOnFencedRegionsFuel (f1 + 1) [] = [([] : List Char)]
      simp [splitOnFencedRegionsFuel, findFencedRegion, splitAtFence]
    | succ f2 =>
      simp only [splitOnFencedRegionsFuel]
      cases h : findFencedRegion cs with
      | none => rfl
      | some t =>
        obtain ⟨before, mid, after⟩ := t
        have hl := findFencedRegion_length h
        dsimp only
        rw [ih f2 after (by omega) (by omega)]

/-- The fuel in `splitOnFencedRegions` is invisible: the function satisfies
the natural recursion of the split loop. -/
theorem splitOnFencedRegions_eq (cs : List Char) :
    splitOnFencedRegions cs =
      match findFencedRegion cs with
      | none => [cs]
      | some (before, mid, after) =>
        before :: (fenceChars ++ mid ++ fenceChars) ::
          splitOnFencedRegions after := by
  cases h : findFencedRegion cs with
  | none =>
    cases hcs : cs with
    | nil => rfl
    | cons c rest =>
      show splitOnFencedRegionsFuel (rest.length + 1) (c :: rest) = _
      simp only [splitOnFencedRegionsFuel]
      rw [hcs] at h
      rw [h]
  | some t =>
    obtain ⟨before, mid, after⟩ := t
    have hl := findFencedRegion_length h
    cases hcs : cs with
    | nil => rw [hcs] at h; simp [findFencedRegion, splitAtFence] at h
    | cons c rest =>
      rw [hcs] at h hl
      show splitOnFencedRegionsFuel (rest.length + 1) (c :: rest) = _
      simp only [splitOnFencedRegionsFuel]
      rw [h]
      dsimp only
      simp only [List.length_cons] at hl
      rw [splitOnFencedRegionsFuel_congr rest.length after.length after
        (by omega) (Nat.le_refl _)]
      rfl

/-- A rendered fragment of a message: either formatted plain text or a code
block (source lines 368-384, where a part matching the inner code regex is
rendered as a collapsible code block and anything else goes through
`renderFormattedLines`). -/
inductive RenderedPart where
  | plain (text : List Char)
  | code (raw : List Char)
deriving DecidableEq, Repr

/-- Raw character content of a rendered part. -/
def RenderedPart.raw : RenderedPart → List Char
  | .plain t => t
  | .code r => r

/-- `renderMessageContent` on the text of a message (source lines 361-384):
strip generation directives, trim, split on fenced regions, and render each
part as a code block exactly when the inner regex
`` ```(\w+)?\n?([\s\S]*?)``` `` matches it, which happens exactly when the
part contains a complete fenced region. -/
def renderMessageParts (text : String) : List RenderedPart :=
  let cleanText := jsTrim (String.mk (stripDirectives text.data))
  (splitOnFencedRegions cleanText.data).map fun part =>
    if (findFencedRegion part).isSome then .code part else .plain part

/-- The image message appended after a successful image generation (source
line 305). -/
def imageMessage (now : Nat) (url : String) : Message :=
  { id := Nat.repr now
    role := .model
    text := "Görsel üretildi."
    timestamp := now
    type := some "image"
    mediaUrl := some url }

/-- A message-creating event of one session: a guarded-and-accepted `send`
(appending the user message and the placeholder) or a completed image
generation (appending one image message).  `now` is the millisecond clock
value the event observes. -/
inductive SessionOp where
  | send (now : Nat) (input : String) (atts : List Attachment)
  | genImage (now : Nat) (url : String)
deriving Repr

/-- The clock value an event observes. -/
def SessionOp.time : SessionOp → Nat
  | .send now _ _ => now
  | .genImage now _ => now

/-- The numeric identifiers an event mints: a send takes `now` and
`now + 1`, an image generation takes `now`. -/
def SessionOp.mintedNats : SessionOp → List Nat
  | .send now _ _ => [now, now + 1]
  | .genImage now _ => [now]

/-- Appending the messages of one event to the list. -/
def applySessionOp (msgs : List Message) : SessionOp → List Message
  | .send now input atts =>
    msgs ++ [userMessage now input atts, placeholderMessage now]
  | .genImage now url => msgs ++ [imageMessage now url]

/-- Running a session: fold the message-creating events over an initial
message list (the rehydrated history, possibly with the greeting
message). -/
def runSession (msgs : List Message) : List SessionOp → List Message
  | [] => msgs
  | op :: ops => runSession (applySessionOp msgs op) ops

/-- C4: the send operation is a no-op — state unchanged and no request
issued — whenever the trimmed input is empty with no attachments, or a send
is already in flight; with non-trivial input, no send in flight and a live
chat session it clears the compose state and appends exactly one user
message followed by one placeholder model message, issuing the request. -/
theorem send_guard (now : Nat) (s : ChatState) :
    ((jsTrim s.input = "" ∧ s.attachments = []) ∨ s.isLoading = true →
      sendStart now s = (s, false)) ∧
    ((jsTrim s.input ≠ "" ∨ s.attachments ≠ []) → s.isLoading = false →
      s.hasSession = true →
      sendStart now s =
        ({ s with
            input := ""
            attachments := []
            isLoading := true
            messages := s.messages ++
              [userMessage now s.input s.attachments, placeholderMessage now] },
          true) ∧
      (userMessage now s.input s.attachments).role = Role.user ∧
      (placeholderMessage now).role = Role.model) := by
  constructor
  · intro h
    rw [sendStart, if_pos]
    rcases h with h | h
    · exact Or.inl h
    · exact Or.inr (Or.inr h)
  · intro hne hload hsess
    rw [sendStart, if_neg]
    · exact ⟨rfl, rfl, rfl⟩
    · rintro (⟨h1, h2⟩ | h | h)
      · rcases hne with hne | hne
        · exact hne h1
        · exact hne h2
      · rw [hsess] at h
        exact absurd h (by decide)
      · rw [hload] at h
        exact absurd h (by decide)

/-- C4 witness: at a state with empty input the send is a no-op, and at a
state with input `hi`, no in-flight send and a live session it appends the
user message and the placeholder. -/
theorem send_guard_witness :
    sendStart 5 (ChatState.mk [] "" [] false true) =
      (ChatState.mk [] "" [] false true, false) ∧
    sendStart 5 (ChatState.mk [] "hi" [] false true) =
      (ChatState.mk [userMessage 5 "hi" [], placeholderMessage 5] "" [] true true,
        true) :=
  ⟨(send_guard 5 (ChatState.mk [] "" [] false true)).1 (Or.inl (by decide)),
   ((send_guard 5 (ChatState.mk [] "hi" [] false true)).2
      (Or.inl (by decide)) rfl rfl).1⟩

/-- C2: after a failed send, every message carrying the placeholder's
identifier has its text replaced by the localized quota string exactly when
the error message is `SYSTEM_BUSY` and by the generic connectivity string
otherwise, and the handler appends no message (the length is unchanged). -/
theorem send_error_replacement (bid err : String) (msgs : List Message) :
    (handleSendError bid err msgs).length = msgs.length ∧
    ∀ m ∈ handleSendError bid err msgs, m.id = bid →
      (m.text = quotaExceededText ↔ err = "SYSTEM_BUSY") ∧
      (err ≠ "SYSTEM_BUSY" → m.text = connectionErrorText) := by
  constructor
  · simp [handleSendError]
  · intro m hm hid
    simp only [handleSendError, List.mem_map] at hm
    obtain ⟨m0, hm0, rfl⟩ := hm
    by_cases hc : m0.id = bid
    · rw [if_pos hc]
      show ((if err = "SYSTEM_BUSY" then quotaExceededText else connectionErrorText) =
          quotaExceededText ↔ err = "SYSTEM_BUSY") ∧
        (err ≠ "SYSTEM_BUSY" →
          (if err = "SYSTEM_BUSY" then quotaExceededText else connectionErrorText) =
            connectionErrorText)
      by_cases he : err = "SYSTEM_BUSY"
      · rw [if_pos he]
        exact ⟨⟨fun _ => he, fun _ => rfl⟩, fun hb => absurd he hb⟩
      · rw [if_neg he]
        exact ⟨⟨fun hq => absurd hq (by decide), fun hb => absurd hb he⟩, fun _ => rfl⟩
    · rw [if_neg hc] at hid ⊢
      exact absurd hid hc

/-- C2 witness: with two concrete failures on a one-placeholder list, the
`SYSTEM_BUSY` failure yields the quota text and any other failure yields
the connectivity text, each leaving exactly one message. -/
theorem send_error_replacement_witness :
    (handleSendError "1" "SYSTEM_BUSY" [placeholderMessage 0]).length = 1 ∧
    ({ placeholderMessage 0 with text := quotaExceededText } : Message).text =
      quotaExceededText ∧
    ({ placeholderMessage 0 with text := connectionErrorText } : Message).text =
      connectionErrorText := by
  refine ⟨(send_error_replacement "1" "SYSTEM_BUSY" [placeholderMessage 0]).1, ?_, ?_⟩
  · exact ((send_error_replacement "1" "SYSTEM_BUSY" [placeholderMessage 0]).2
      { placeholderMessage 0 with text := quotaExceededText }
      (by decide) (by decide)).1.mpr rfl
  · exact ((send_error_replacement "1" "boom" [placeholderMessage 0]).2
      { placeholderMessage 0 with text := connectionErrorText }
      (by decide) (by decide)).2 (by decide)

/-- Invariant of the streaming loop: if every message carrying the
placeholder identifier currently holds the accumulated text, then after the
remaining fragments arrive it holds the accumulated text extended by their
concatenation. -/
theorem runStream_text (bid : String)
    (chunks : List (String × Option (List String))) :
    ∀ (fullText : String) (msgs : List Message),
      (∀ m ∈ msgs, m.id = bid → m.text = fullText) →
      ∀ m ∈ (runStream bid fullText msgs chunks).2, m.id = bid →
        m.text = fullText ++ concatChunks (chunks.map Prod.fst) := by
  induction chunks with
  | nil =>
    intro fullText msgs h m hm hid
    simp only [runStream] at hm
    simpa [concatChunks] using h m hm hid
  | cons cg rest ih =>
    intro fullText msgs h m hm hid
    obtain ⟨c, g⟩ := cg
    simp only [runStream] at hm
    have h' : ∀ m ∈ applyChunk bid (fullText ++ c) g msgs, m.id = bid →
        m.text = fullText ++ c := by
      intro m1 hm1 hid1
      simp only [applyChunk, List.mem_map] at hm1
      obtain ⟨m0, hm0, rfl⟩ := hm1
      by_cases hc : m0.id = bid
      · simp [hc]
      · rw [if_neg hc] at hid1
        exact absurd hid1 hc
    have := ih (fullText ++ c) _ h' m hm hid
    rw [this]
    simp [concatChunks, String.append_assoc]

/-- C1: starting from a list whose placeholder text is empty, after any
prefix of the fragment stream has been delivered the placeholder's text
equals the concatenation of the fragments received so far, in arrival
order. -/
theorem stream_text_concat (bid : String) (msgs : List Message)
    (hinit : ∀ m ∈ msgs, m.id = bid → m.text = "")
    (chunks : List (String × Option (List String))) (k : Nat) :
    ∀ m ∈ (runStream bid "" msgs (chunks.take k)).2, m.id = bid →
      m.text = concatChunks ((chunks.take k).map Prod.fst) := by
  intro m hm hid
  have h0 : ∀ m ∈ msgs, m.id = bid → m.text = "" := hinit
  have := runStream_text bid (chunks.take k) "" msgs h0 m hm hid
  simpa using this

/-- C1 witness: for the stream `Hel` then `lo` delivered to a fresh
placeholder, the text after the first fragment is `Hel` and the final text
is `Hello`. -/
theorem stream_text_concat_witness :
    (Message.mk "1" Role.model "Hel" 0 none none (some [])).text =
      concatChunks (([("Hel", (none : Option (List String))), ("lo", none)].take 1).map
        Prod.fst) ∧
    (Message.mk "1" Role.model "Hello" 0 none none (some [])).text =
      concatChunks (([("Hel", (none : Option (List String))), ("lo", none)].take 2).map
        Prod.fst) :=
  ⟨stream_text_concat "1" [placeholderMessage 0] (by decide)
      [("Hel", none), ("lo", none)] 1
      (Message.mk "1" Role.model "Hel" 0 none none (some [])) (by decide) (by decide),
   stream_text_concat "1" [placeholderMessage 0] (by decide)
      [("Hel", none), ("lo", none)] 2
      (Message.mk "1" Role.model "Hello" 0 none none (some [])) (by decide) (by decide)⟩

theorem append_ne_of_ne_at (p q a b : String) (i : Nat)
    (hp : i < p.data.length) (hq : i < q.data.length)
    (hne : p.data.get? i ≠ q.data.get? i) : p ++ a ≠ q ++ b := by
  intro h
  apply hne
  have hd : p.data ++ a.data = q.data ++ b.data := by
    have := congrArg String.data h
    simpa [String.data_append] using this
  have h1 : (p.data ++ a.data)[i]? = p.data[i]? := List.getElem?_append_left hp
  have h2 : (q.data ++ b.data)[i]? = q.data[i]? := List.getElem?_append_left hq
  rw [List.get?_eq_getElem?, List.get?_eq_getElem?, ← h1, ← h2, hd]

theorem chatStorageKey_injective {a b : String}
    (h : chatStorageKey a = chatStorageKey b) : a = b := by
  have hd := congrArg String.data h
  simp only [chatStorageKey, String.data_append] at hd
  exact String.ext (List.append_cancel_left hd)

theorem chatKey_ne_panoKey (a b : String) :
    chatStorageKey a ≠ panoStorageKey b := by
  unfold chatStorageKey panoStorageKey
  exact append_ne_of_ne_at "geminihub_chat_history_" "geminihub_pano_" a b 10
    (by decide) (by decide) (by decide)

theorem chatKey_ne_modelKey (a b : String) :
    chatStorageKey a ≠ modelStorageKey b := by
  unfold chatStorageKey modelStorageKey
  exact append_ne_of_ne_at "geminihub_chat_history_" "geminihub_selected_model_" a b 10
    (by decide) (by decide) (by decide)

/-- C5: confirming the reset empties the in-memory message list and removes
the persisted chat-history entry of the current bot identifier, while the
chat-history entries of every other identifier, all persisted notes and
selected-model entries, the in-memory notes and the selected model are
untouched. -/
theorem reset_clears_current_chat (id : String) (s : SessionState) :
    (confirmReset id s).messages = [] ∧
    (confirmReset id s).storage (chatStorageKey id) = none ∧
    (∀ j, j ≠ id →
      (confirmReset id s).storage (chatStorageKey j) =
        s.storage (chatStorageKey j)) ∧
    (∀ j, (confirmReset id s).storage (panoStorageKey j) =
      s.storage (panoStorageKey j)) ∧
    (∀ j, (confirmReset id s).storage (modelStorageKey j) =
      s.storage (modelStorageKey j)) ∧
    (confirmReset id s).panoNotes = s.panoNotes ∧
    (confirmReset id s).selectedModel = s.selectedModel := by
  refine ⟨rfl, ?_, ?_, ?_, ?_, rfl, rfl⟩
  · show (if chatStorageKey id = chatStorageKey id then none
        else s.storage (chatStorageKey id)) = none
    exact if_pos rfl
  · intro j hj
    show (if chatStorageKey j = chatStorageKey id then none
        else s.storage (chatStorageKey j)) = s.storage (chatStorageKey j)
    exact if_neg fun heq => hj (chatStorageKey_injective heq)
  · intro j
    show (if panoStorageKey j = chatStorageKey id then none
        else s.storage (panoStorageKey j)) = s.storage (panoStorageKey j)
    exact if_neg fun heq => chatKey_ne_panoKey id j heq.symm
  · intro j
    show (if modelStorageKey j = chatStorageKey id then none
        else s.storage (modelStorageKey j)) = s.storage (modelStorageKey j)
    exact if_neg fun heq => chatKey_ne_modelKey id j heq.symm

/-- C5 witness: at a concrete session with identifier `a`, the reset empties
the messages, removes the chat entry for `a`, and keeps the chat entry for
`b` and the notes and model entries for `a`. -/
theorem reset_clears_current_chat_witness :
    (confirmReset "a" (SessionState.mk [initMessage "B" 0] [] "m"
        (fun _ => some "v"))).messages = [] ∧
    (confirmReset "a" (SessionState.mk [initMessage "B" 0] [] "m"
        (fun _ => some "v"))).storage (chatStorageKey "a") = none ∧
    (confirmReset "a" (SessionState.mk [initMessage "B" 0] [] "m"
        (fun _ => some "v"))).storage (chatStorageKey "b") = some "v" ∧
    (confirmReset "a" (SessionState.mk [initMessage "B" 0] [] "m"
        (fun _ => some "v"))).storage (panoStorageKey "a") = some "v" ∧
    (confirmReset "a" (SessionState.mk [initMessage "B" 0] [] "m"
        (fun _ => some "v"))).storage (modelStorageKey "a") = some "v" := by
  obtain ⟨h1, h2, h3, h4, h5, -, -⟩ :=
    reset_clears_current_chat "a"
      (SessionState.mk [initMessage "B" 0] [] "m" (fun _ => some "v"))
  exact ⟨h1, h2, h3 "b" (by decide), h4 "a", h5 "a"⟩

/-- C10: the persistence effect leaves storage unchanged on an empty message
list, writes the serialised list under the chat key when the list is
non-empty, and immediately after a reset the chat key is still absent. -/
theorem persist_skips_empty (id : String) (serialize : List Message → String)
    (msgs : List Message) (st : Storage) (s : SessionState) :
    persistMessages id serialize [] st = st ∧
    (msgs ≠ [] →
      persistMessages id serialize msgs st (chatStorageKey id) =
        some (serialize msgs)) ∧
    persistMessages id serialize (confirmReset id s).messages
        (confirmReset id s).storage (chatStorageKey id) = none := by
  refine ⟨?_, ?_, ?_⟩
  · simp [persistMessages]
  · intro h
    unfold persistMessages
    rw [if_pos (by simpa [List.length_pos] using h)]
    exact if_pos rfl
  · show persistMessages id serialize [] (confirmReset id s).storage
        (chatStorageKey id) = none
    simp only [persistMessages, List.length_nil, gt_iff_lt, Nat.lt_irrefl,
      if_false]
    exact if_pos rfl

/-- C10 witness: with a concrete serialiser and store, persisting the empty
list changes nothing, persisting a one-message list writes it, and after a
reset the chat entry stays absent. -/
theorem persist_skips_empty_witness :
    persistMessages "a" (fun _ => "S") []
      (fun _ => some "v") = (fun _ => some "v") ∧
    persistMessages "a" (fun _ => "S") [initMessage "B" 0]
      (fun _ => some "v") (chatStorageKey "a") = some "S" ∧
    persistMessages "a" (fun _ => "S")
      (confirmReset "a" (SessionState.mk [initMessage "B" 0] [] "m"
        (fun _ => some "v"))).messages
      (confirmReset "a" (SessionState.mk [initMessage "B" 0] [] "m"
        (fun _ => some "v"))).storage (chatStorageKey "a") = none := by
  obtain ⟨h1, h2, h3⟩ :=
    persist_skips_empty "a" (fun _ => "S") [initMessage "B" 0]
      (fun _ => some "v")
      (SessionState.mk [initMessage "B" 0] [] "m" (fun _ => some "v"))
  exact ⟨h1, h2 (by simp), h3⟩

/-- C6: a note saved from a message whose cleaned text is non-empty is
prepended with source tag `bot` and the directive-stripped, trimmed text; a
note saved from the manual form with non-blank input is prepended with
source tag `user` and the trimmed text; the rest of the list is unchanged
in both cases. -/
theorem notes_prepend (now : Nat) (text manual : String)
    (notes : List PanoNote) :
    (jsTrim (String.mk (stripDirectives text.data)) ≠ "" →
      handleSaveToPano now text notes =
        { id := Nat.repr now
          text := jsTrim (String.mk (stripDirectives text.data))
          timestamp := now
          source := NoteSource.bot } :: notes) ∧
    (jsTrim manual ≠ "" →
      handleManualNoteSave now manual notes =
        { id := Nat.repr now
          text := jsTrim manual
          timestamp := now
          source := NoteSource.user } :: notes) := by
  constructor
  · intro h
    unfold handleSaveToPano
    rw [if_neg h]
  · intro h
    unfold handleManualNoteSave
    rw [if_neg h]

/-- C6 witness: saving the message text `[GENERATE_IMAGE: cat] hello`
prepends a bot note reading `hello`, and saving the manual text `  hi `
prepends a user note reading `hi`. -/
theorem notes_prepend_witness :
    handleSaveToPano 7 "[GENERATE_IMAGE: cat] hello" [] =
      [{ id := Nat.repr 7, text := "hello", timestamp := 7,
         source := NoteSource.bot }] ∧
    handleManualNoteSave 7 "  hi " [] =
      [{ id := Nat.repr 7, text := "hi", timestamp := 7,
         source := NoteSource.user }] := by
  obtain ⟨h1, h2⟩ := notes_prepend 7 "[GENERATE_IMAGE: cat] hello" "  hi " []
  constructor
  · rw [h1 (by decide)]
    decide
  · rw [h2 (by decide)]
    decide

/-- C7 counterexample: on the bot-identifier-change reload, a persisted
chat-history string that fails to parse does not fall back to the empty
collection — it installs the single greeting message — and a notes string
that fails to parse leaves the previous (non-empty) notes in place. -/
theorem reload_parse_failure_not_empty :
    reloadMessages (fun _ => none) "TestBot" 0 (some "not json") ≠ [] ∧
    reloadPanoNotes (fun _ => none) (some "not json")
      [PanoNote.mk "1" "old" 0 NoteSource.bot] ≠ [] := by
  constructor <;> decide

/-- C7 amended: a persisted string that fails to parse yields the empty
collection on the initial-mount initialisers (both chat history and notes);
on the bot-identifier-change reload it yields the single greeting message
for chat history and leaves the previous notes list unchanged. -/
theorem rehydrate_parse_fallbacks
    (parseM : String → Option (List Message))
    (parseP : String → Option (List PanoNote))
    (s botName : String) (now : Nat) (prev : List PanoNote)
    (hm : parseM s = none) (hp : parseP s = none) :
    initMessages parseM (some s) = [] ∧
    initPanoNotes parseP (some s) = [] ∧
    reloadMessages parseM botName now (some s) = [initMessage botName now] ∧
    reloadPanoNotes parseP (some s) prev = prev := by
  by_cases hs : s = "" <;>
    simp [initMessages, initPanoNotes, reloadMessages, reloadPanoNotes, hs,
      hm, hp]

/-- C7 witness: with the failing parse on the string `not json`, the mount
initialisers yield empty collections, the reload yields the greeting
message, and a previous notes list survives the reload. -/
theorem rehydrate_parse_fallbacks_witness :
    initMessages (fun _ => none) (some "not json") = [] ∧
    initPanoNotes (fun _ => none) (some "not json") = [] ∧
    reloadMessages (fun _ => none) "TestBot" 3 (some "not json") =
      [initMessage "TestBot" 3] ∧
    reloadPanoNotes (fun _ => none) (some "not json")
      [PanoNote.mk "1" "old" 0 NoteSource.bot] =
      [PanoNote.mk "1" "old" 0 NoteSource.bot] :=
  rehydrate_parse_fallbacks (fun _ => none) (fun _ => none) "not json" "TestBot" 3
    [PanoNote.mk "1" "old" 0 NoteSource.bot] rfl rfl

/-- C3: the derived file name is the name captured by a first-line filename
directive when one is present; otherwise `html`, `js` and `css` map to
their fixed defaults, and any other non-empty language tag `lang` yields
`file.<lang>`. -/
theorem filename_derivation (code lang : String) :
    (∀ name, searchFilenameDirective (firstLine code) = some name →
      getFilenameFromCode code lang = String.mk name) ∧
    (searchFilenameDirective (firstLine code) = none →
      (getFilenameFromCode code "html" = "index.html" ∧
       getFilenameFromCode code "js" = "script.js" ∧
       getFilenameFromCode code "css" = "style.css") ∧
      (jsToLower lang ≠ "html" → jsToLower lang ≠ "js" →
        jsToLower lang ≠ "css" → lang ≠ "" →
        getFilenameFromCode code lang = "file." ++ lang)) := by
  constructor
  · intro name h
    unfold getFilenameFromCode
    rw [h]
  · intro h
    constructor
    · refine ⟨?_, ?_, ?_⟩ <;>
        · unfold getFilenameFromCode
          rw [h]
          decide
    · intro h1 h2 h3 h4
      unfold getFilenameFromCode
      rw [h]
      dsimp only
      rw [if_neg h1, if_neg h2, if_neg h3, if_neg h4]

/-- C3 witness: a first-line directive overrides the language default; with
no directive, `html` yields `index.html` and the unrecognised tag `foo`
yields `file.foo`. -/
theorem filename_derivation_witness :
    getFilenameFromCode "// filename: app.ts\nconsole.log(1)" "html" =
      String.mk "app.ts".data ∧
    getFilenameFromCode "let x = 1" "html" = "index.html" ∧
    getFilenameFromCode "let x = 1" "foo" = "file." ++ "foo" := by
  refine ⟨?_, ?_, ?_⟩
  · exact (filename_derivation "// filename: app.ts\nconsole.log(1)" "html").1
      "app.ts".data (by decide)
  · exact ((filename_derivation "let x = 1" "html").2 (by decide)).1.1
  · exact ((filename_derivation "let x = 1" "foo").2 (by decide)).2
      (by decide) (by decide) (by decide) (by decide)

theorem splitAtFence_before_none {cs b a : List Char}
    (h : splitAtFence cs = some (b, a)) : splitAtFence b = none := by
  induction cs generalizing b with
  | nil => simp [splitAtFence] at h
  | cons c cs ih =>
    simp only [splitAtFence] at h
    split at h
    · cases h
      rfl
    · rename_i hpre
      cases h' : splitAtFence cs with
      | none => rw [h'] at h; exact absurd h (by simp)
      | some p =>
        obtain ⟨b1, a1⟩ := p
        rw [h'] at h
        have h2 : (c :: b1, a1) = (b, a) := by simpa using h
        cases h2
        simp only [splitAtFence]
        have hne : ¬ fenceChars.isPrefixOf (c :: b1) = true := by
          intro hf
          apply hpre
          have hpf : fenceChars <+: (c :: b1) := List.isPrefixOf_iff_prefix.mp hf
          have hcs : c :: cs = (c :: b1) ++ (fenceChars ++ a) := by
            rw [splitAtFence_eq_append h']
            simp
          rw [List.isPrefixOf_iff_prefix, hcs]
          exact hpf.trans (List.prefix_append _ _)
        rw [if_neg hne, ih h']
        rfl

theorem findFencedRegion_before_none {cs b m a : List Char}
    (h : findFencedRegion cs = some (b, m, a)) : findFencedRegion b = none := by
  unfold findFencedRegion at h ⊢
  cases h1 : splitAtFence cs with
  | none => rw [h1] at h; exact absurd h (by simp)
  | some p =>
    obtain ⟨b1, r1⟩ := p
    rw [h1] at h
    dsimp only at h
    cases h2 : splitAtFence r1 with
    | none => rw [h2] at h; exact absurd h (by simp)
    | some q =>
      obtain ⟨m2, a2⟩ := q
      rw [h2] at h
      dsimp only at h
      cases h
      rw [splitAtFence_before_none h1]

theorem splitOnFencedRegionsFuel_ne_nil (fuel : Nat) (cs : List Char) :
    splitOnFencedRegionsFuel fuel cs ≠ [] := by
  cases fuel with
  | zero => simp [splitOnFencedRegionsFuel]
  | succ fuel =>
    simp only [splitOnFencedRegionsFuel]
    cases h : findFencedRegion cs with
    | none => simp
    | some t =>
      obtain ⟨before, mid, after⟩ := t
      simp

theorem splitOnFencedRegionsFuel_join :
    ∀ (fuel : Nat) (cs : List Char), cs.length ≤ fuel →
      (splitOnFencedRegionsFuel fuel cs).foldr (· ++ ·) [] = cs := by
  intro fuel
  induction fuel with
  | zero =>
    intro cs _
    simp [splitOnFencedRegionsFuel]
  | succ fuel ih =>
    intro cs h
    simp only [splitOnFencedRegionsFuel]
    cases hf : findFencedRegion cs with
    | none => simp
    | some t =>
      obtain ⟨before, mid, after⟩ := t
      have hl := findFencedRegion_length hf
      dsimp only
      rw [List.foldr_cons, List.foldr_cons, ih after (by omega),
        findFencedRegion_eq_append hf]
      simp [List.append_assoc]

theorem splitOnFencedRegionsFuel_code_shape :
    ∀ (fuel : Nat) (cs : List Char), cs.length ≤ fuel →
      ∀ part ∈ splitOnFencedRegionsFuel fuel cs,
        (findFencedRegion part).isSome = true →
        ∃ mid, part = fenceChars ++ mid ++ fenceChars := by
  intro fuel
  induction fuel with
  | zero =>
    intro cs h part hmem hsome
    have : cs = [] := List.length_eq_zero.mp (Nat.le_zero.mp h)
    subst this
    simp only [splitOnFencedRegionsFuel, List.mem_singleton] at hmem
    subst hmem
    simp [findFencedRegion, splitAtFence] at hsome
  | succ fuel ih =>
    intro cs h part hmem hsome
    simp only [splitOnFencedRegionsFuel] at hmem
    cases hf : findFencedRegion cs with
    | none =>
      rw [hf] at hmem
      simp only [List.mem_singleton] at hmem
      subst hmem
      rw [hf] at hsome
      simp at hsome
    | some t =>
      obtain ⟨before, mid, after⟩ := t
      rw [hf] at hmem
      dsimp only at hmem
      rcases List.mem_cons.mp hmem with rfl | hmem2
      · rw [findFencedRegion_before_none hf] at hsome
        simp at hsome
      · rcases List.mem_cons.mp hmem2 with rfl | hmem3
        · exact ⟨mid, rfl⟩
        · have hl := findFencedRegion_length hf
          exact ih after (by omega) part hmem3 hsome

theorem splitOnFencedRegionsFuel_last :
    ∀ (fuel : Nat) (cs : List Char), cs.length ≤ fuel →
      ∃ l, (splitOnFencedRegionsFuel fuel cs).getLast? = some l ∧
        findFencedRegion l = none := by
  intro fuel
  induction fuel with
  | zero =>
    intro cs h
    have : cs = [] := List.length_eq_zero.mp (Nat.le_zero.mp h)
    subst this
    exact ⟨[], rfl, rfl⟩
  | succ fuel ih =>
    intro cs h
    simp only [splitOnFencedRegionsFuel]
    cases hf : findFencedRegion cs with
    | none => exact ⟨cs, by simp, hf⟩
    | some t =>
      obtain ⟨before, mid, after⟩ := t
      have hl := findFencedRegion_length hf
      obtain ⟨l, hlast, hnone⟩ := ih after (by omega)
      refine ⟨l, ?_, hnone⟩
      dsimp only
      cases hL : splitOnFencedRegionsFuel fuel after with
      | nil => exact absurd hL (splitOnFencedRegionsFuel_ne_nil fuel after)
      | cons x xs =>
        rw [List.getLast?_cons_cons, List.getLast?_cons_cons, ← hL]
        exact hlast

theorem splitOnFencedRegions_join (cs : List Char) :
    (splitOnFencedRegions cs).foldr (· ++ ·) [] = cs :=
  splitOnFencedRegionsFuel_join cs.length cs (Nat.le_refl _)

theorem splitOnFencedRegions_code_shape (cs : List Char) :
    ∀ part ∈ splitOnFencedRegions cs, (findFencedRegion part).isSome = true →
      ∃ mid, part = fenceChars ++ mid ++ fenceChars :=
  splitOnFencedRegionsFuel_code_shape cs.length cs (Nat.le_refl _)

theorem splitOnFencedRegions_last (cs : List Char) :
    ∃ l, (splitOnFencedRegions cs).getLast? = some l ∧
      findFencedRegion l = none :=
  splitOnFencedRegionsFuel_last cs.length cs (Nat.le_refl _)

/-- The classification in `renderMessageParts` does not change the raw text
of the parts. -/
theorem renderMessageParts_raw (text : String) :
    (renderMessageParts text).map RenderedPart.raw =
      splitOnFencedRegions (jsTrim (String.mk (stripDirectives text.data))).data := by
  unfold renderMessageParts
  rw [List.map_map]
  conv_rhs =>
    rw [← List.map_id (splitOnFencedRegions
      (jsTrim (String.mk (stripDirectives text.data))).data)]
  apply List.map_congr_left
  intro p _
  by_cases hp : (findFencedRegion p).isSome <;>
    simp [hp, RenderedPart.raw, Function.comp]

/-- C8: rendering a message text is total and well-formed — the rendered
parts concatenate back to the cleaned text (nothing is lost or invented),
every part rendered as a code block is a region delimited by a matched
pair of triple-backtick fences, and the final part — which carries any text
following an unmatched fence — is always rendered as plain formatted
text. -/
theorem render_fences_wellformed (text : String) :
    (((renderMessageParts text).map RenderedPart.raw).foldr (· ++ ·) [] =
      (jsTrim (String.mk (stripDirectives text.data))).data) ∧
    (∀ p ∈ renderMessageParts text, ∀ raw, p = RenderedPart.code raw →
      ∃ mid, raw = fenceChars ++ mid ++ fenceChars) ∧
    (∃ t, (renderMessageParts text).getLast? = some (RenderedPart.plain t)) := by
  refine ⟨?_, ?_, ?_⟩
  · rw [renderMessageParts_raw]
    exact splitOnFencedRegions_join _
  · intro p hp raw hraw
    unfold renderMessageParts at hp
    simp only [List.mem_map] at hp
    obtain ⟨part, hpart, hclass⟩ := hp
    by_cases hs : (findFencedRegion part).isSome
    · rw [if_pos hs] at hclass
      subst hclass
      injection hraw with hpr
      subst hpr
      exact splitOnFencedRegions_code_shape _ part hpart hs
    · rw [if_neg hs] at hclass
      subst hclass
      exact absurd hraw (by simp)
  · unfold renderMessageParts
    obtain ⟨l, hlast, hnone⟩ :=
      splitOnFencedRegions_last (jsTrim (String.mk (stripDirectives text.data))).data
    rw [List.getLast?_map, hlast]
    exact ⟨l, by simp [hnone]⟩

/-- C8 witness: for the text `a ```x``` b ```c` — one matched pair followed
by an unterminated fence — the parts concatenate back to the text, the
region between the matched fences is the one code block, and the trailing
part with the odd fence is plain. -/
theorem render_fences_wellformed_witness :
    (((renderMessageParts "a ```x``` b ```c").map RenderedPart.raw).foldr
        (· ++ ·) [] =
      (jsTrim (String.mk (stripDirectives ("a ```x``` b ```c" : String).data))).data) ∧
    (∃ mid, ("```x```" : String).data = fenceChars ++ mid ++ fenceChars) ∧
    (∃ t, (renderMessageParts "a ```x``` b ```c").getLast? =
      some (RenderedPart.plain t)) := by
  obtain ⟨h1, h2, h3⟩ := render_fences_wellformed "a ```x``` b ```c"
  exact ⟨h1,
    h2 (RenderedPart.code ("```x```" : String).data) (by decide) _ rfl, h3⟩

/-- Numeric value of a decimal digit character. -/
def digitVal (c : Char) : Nat := c.toNat - 48

/-- Decode a most-significant-first decimal digit list. -/
def decodeDigits (l : List Char) : Nat :=
  l.foldl (fun a c => a * 10 + digitVal c) 0

theorem digitVal_digitChar {d : Nat} (h : d < 10) :
    digitVal (Nat.digitChar d) = d := by
  interval_cases d <;> decide

theorem toDigitsCore_append (fuel : Nat) :
    ∀ (n : Nat) (acc : List Char),
      Nat.toDigitsCore 10 fuel n acc = Nat.toDigitsCore 10 fuel n [] ++ acc := by
  induction fuel with
  | zero => intro n acc; rfl
  | succ fuel ih =>
    intro n acc
    simp only [Nat.toDigitsCore]
    by_cases h : n / 10 = 0
    · rw [if_pos h, if_pos h]
      rfl
    · rw [if_neg h, if_neg h, ih (n / 10) [Nat.digitChar (n % 10)],
        ih (n / 10) (Nat.digitChar (n % 10) :: acc), List.append_assoc]
      rfl

theorem decodeDigits_toDigitsCore :
    ∀ (fuel n : Nat), n < fuel →
      decodeDigits (Nat.toDigitsCore 10 fuel n []) = n := by
  intro fuel
  induction fuel with
  | zero => omega
  | succ fuel ih =>
    intro n h
    simp only [Nat.toDigitsCore]
    by_cases h0 : n / 10 = 0
    · rw [if_pos h0]
      have hn : n < 10 := by omega
      show 0 * 10 + digitVal (Nat.digitChar (n % 10)) = n
      rw [Nat.zero_mul, Nat.zero_add, digitVal_digitChar (Nat.mod_lt n (by omega)),
        Nat.mod_eq_of_lt hn]
    · rw [if_neg h0, toDigitsCore_append]
      have hrec : decodeDigits (Nat.toDigitsCore 10 fuel (n / 10) []) = n / 10 :=
        ih (n / 10) (by omega)
      unfold decodeDigits at hrec ⊢
      rw [List.foldl_append, hrec]
      show n / 10 * 10 + digitVal (Nat.digitChar (n % 10)) = n
      rw [digitVal_digitChar (Nat.mod_lt n (by omega))]
      omega

theorem decodeDigits_toDigits (n : Nat) :
    decodeDigits (Nat.toDigits 10 n) = n :=
  decodeDigits_toDigitsCore (n + 1) n (Nat.lt_succ_self n)

/-- Decimal rendering of natural numbers (`Date.now().toString()` in the
source) is injective. -/
theorem natRepr_injective {m n : Nat} (h : Nat.repr m = Nat.repr n) : m = n := by
  have hd : Nat.toDigits 10 m = Nat.toDigits 10 n := by
    have := congrArg String.data h
    simpa [Nat.repr, List.asString] using this
  have := congrArg decodeDigits hd
  simpa [decodeDigits_toDigits] using this

theorem runSession_map_id (ops : List SessionOp) :
    ∀ (msgs : List Message),
      (runSession msgs ops).map Message.id =
        msgs.map Message.id ++
          (ops.flatMap SessionOp.mintedNats).map Nat.repr := by
  induction ops with
  | nil => intro msgs; simp [runSession]
  | cons op ops ih =>
    intro msgs
    rw [runSession, ih]
    cases op <;>
      simp [applySessionOp, userMessage, placeholderMessage, imageMessage,
        SessionOp.mintedNats]

theorem mintedNats_bounds (op : SessionOp) :
    ∀ t ∈ op.mintedNats, op.time ≤ t ∧ t ≤ op.time + 1 := by
  cases op <;> simp [SessionOp.mintedNats, SessionOp.time]

/-- C9 counterexample: the claim fails as stated — two accepted sends whose
clock readings are one millisecond apart mint a duplicate identifier (the
first send's placeholder and the second send's user message both get
`101`), and nothing in the code prevents consecutive clock readings. -/
theorem send_ids_collide :
    ¬ ((sendStart 101 (setInput "again" (finishSend
        (sendStart 100 (ChatState.mk [] "hi" [] false true)).1))).1.messages.map
          Message.id).Nodup := by decide

/-- C9 amended: message identifiers are unique provided the pre-existing
messages (rehydrated history and greeting) already have pairwise-distinct
identifiers, each message-creating operation observes a clock value at
least two greater than the clock value of the operation before it, and no
pre-existing identifier is the decimal rendering of a clock value (or its
successor) minted later. -/
theorem session_ids_nodup (msgs : List Message) (ops : List SessionOp)
    (h0 : (msgs.map Message.id).Nodup)
    (h1 : ops.Pairwise (fun a b => a.time + 2 ≤ b.time))
    (h2 : ∀ op ∈ ops, ∀ t ∈ op.mintedNats,
      Nat.repr t ∉ msgs.map Message.id) :
    ((runSession msgs ops).map Message.id).Nodup := by
  rw [runSession_map_id]
  apply List.Nodup.append h0
  · apply List.Nodup.map (fun a b hab => natRepr_injective hab)
    have hp : (ops.flatMap SessionOp.mintedNats).Pairwise (· < ·) := by
      rw [List.pairwise_flatMap]
      constructor
      · intro a _
        cases a <;> simp [SessionOp.mintedNats]
      · apply h1.imp
        intro a b hab x hx y hy
        have hxa := (mintedNats_bounds a x hx).2
        have hyb := (mintedNats_bounds b y hy).1
        omega
    exact hp.imp Nat.ne_of_lt
  · intro x hx hx2
    simp only [List.mem_map, List.mem_flatMap] at hx2
    obtain ⟨t, ⟨op, hop, ht⟩, rfl⟩ := hx2
    exact h2 op hop t ht hx

/-- C9 witness: a concrete session — greeting message, then a send at clock
100, an image generation at 102 and a send at 104 — has pairwise-distinct
message identifiers. -/
theorem session_ids_nodup_witness :
    ((runSession [initMessage "B" 0]
        [SessionOp.send 100 "hi" [], SessionOp.genImage 102 "u",
         SessionOp.send 104 "x" []]).map Message.id).Nodup := by
  apply session_ids_nodup
  · decide
  · decide
  · decide

end LiveTest
